import Mathlib

/-!
Shallow embedding of `ReadOnlyFileStream` from `be/src/olap/file_stream.cpp`.

The reader's collaborators (positioned file cursor, storage byte buffer,
decompressor, position provider) are declared in headers that are not part of
this repository snapshot; they are modelled from the spec's collaborator
contracts (spec sections 3 and 6).  The reader itself (`_assure_data`, `seek`,
`skip`, `_fill_compressed`, `available`) is translated line by line from
`file_stream.cpp`.

Bytes are modelled as natural numbers; the two buffer objects that ever exist
(the caller-shared scratch buffer and the reader-owned compressed helper) live
in the two fields `buf0`/`buf1` of the reader state, and the C++ pointers
`_compressed_helper`, `*_shared_buffer` and `_uncompressed` are modelled as
names (`Bool` selects which object, `Option Bool` for the nullable
`_uncompressed`).  Swapping the pointers in the RAW-block path is then a swap
of names, exactly as in the source.  The file cursor carries a ghost counter
`readCount` (incremented on every `read`) used only to state "performs no file
read" properties; it has no influence on behaviour.
-/

namespace FileStream

/-- Error kinds of the OLAP status codes that `file_stream.cpp` can return:
end of stream, a cursor read failure, the header-capacity bounds rejection,
a decompressor failure, a `set_position` beyond the limit.  `nullPointer`
models dereferencing a null `_uncompressed` (which would be undefined
behaviour in the C++); `outOfFuel` is an artifact of the fuel-bounded loop
model of `skip` and is unreachable for the fuel `skip` supplies. -/
inductive Err where
  | streamEof
  | ioError
  | outOfBounds
  | decompressError
  | positionError
  | nullPointer
  | outOfFuel
  deriving DecidableEq, Repr

/-- Modelled from the spec: the growable byte container (`StorageByteBuffer`)
with a read/write `position`, a `limit`, and direct access to its backing
storage (`data`). -/
structure StorageByteBuffer where
  data : List Nat
  position : Nat
  limit : Nat
  deriving DecidableEq, Repr

/-- Modelled from the spec: `remaining = limit - position`. -/
def StorageByteBuffer.remaining (b : StorageByteBuffer) : Nat :=
  b.limit - b.position

/-- Modelled from the spec: `set_position` fails if the target exceeds `limit`. -/
def StorageByteBuffer.setPosition (b : StorageByteBuffer) (n : Nat) :
    Option StorageByteBuffer :=
  if n ≤ b.limit then some { b with position := n } else none

/-- Modelled from the spec: `set_limit`. -/
def StorageByteBuffer.setLimit (b : StorageByteBuffer) (n : Nat) :
    StorageByteBuffer :=
  { b with limit := n }

/-- The bytes of the buffer's valid region, from `position` up to `limit`. -/
def StorageByteBuffer.validBytes (b : StorageByteBuffer) : List Nat :=
  (b.data.take b.limit).drop b.position

/-- Internal well-formedness of a buffer: the cursor does not exceed the limit
and the limit does not exceed the backing storage. -/
def StorageByteBuffer.wfb (b : StorageByteBuffer) : Bool :=
  decide (b.position ≤ b.limit) && decide (b.limit ≤ b.data.length)

/-- Modelled from the spec: the positioned file cursor, a bounded view over a
file region; `content` is the byte content of the bound region and `pos` the
current read position inside it.  `readCount` is a ghost counter of performed
reads, used only to state "no file I/O" properties. -/
structure FileCursor where
  content : List Nat
  pos : Nat
  readCount : Nat
  deriving DecidableEq, Repr

/-- Cursor `length()`: size of the bound region. -/
def FileCursor.length (c : FileCursor) : Nat := c.content.length

/-- Cursor `position()`: bytes already consumed. -/
def FileCursor.position (c : FileCursor) : Nat := c.pos

/-- Cursor `eof()`: the position has reached the bound. -/
def FileCursor.eof (c : FileCursor) : Bool := decide (c.length ≤ c.pos)

/-- Cursor `remain()`: bytes of the region not yet consumed. -/
def FileCursor.remain (c : FileCursor) : Nat := c.length - c.pos

/-- Modelled from the spec: sequential cursor read of `n` bytes; fails (the
`IoError` kind) when fewer than `n` bytes remain, advances the position and
the ghost read counter on success. -/
def FileCursor.read (c : FileCursor) (n : Nat) :
    Option (List Nat × FileCursor) :=
  if c.pos + n ≤ c.length then
    some ((c.content.drop c.pos).take n,
      { c with pos := c.pos + n, readCount := c.readCount + 1 })
  else none

/-- Modelled from the spec: absolute cursor seek. -/
def FileCursor.seek (c : FileCursor) (p : Nat) : FileCursor :=
  { c with pos := p }

/-- Block kind tag of `StreamHead` (`UNCOMPRESSED` / `COMPRESSED`). -/
inductive StreamKind where
  | uncompressed
  | compressed
  deriving DecidableEq, Repr

/-- The block header `StreamHead`: a kind tag and the on-disk payload length. -/
structure StreamHead where
  type : StreamKind
  length : Nat
  deriving DecidableEq, Repr

/-- Modelled from the spec: the header has a fixed byte width; its binary
layout is not in the snapshot, so we use a two-cell encoding (kind tag cell,
length cell). -/
def streamHeadSize : Nat := 2

/-- Encoding of a header as it sits in the file, immediately before the
block payload. -/
def encodeHead (h : StreamHead) : List Nat :=
  [(match h.type with | StreamKind.uncompressed => 0 | StreamKind.compressed => 1),
   h.length]

/-- Reinterpretation of `streamHeadSize` raw bytes as a `StreamHead` (the
`reinterpret_cast` of the header read). -/
def decodeHead (bs : List Nat) : StreamHead :=
  { type := if bs.headD 0 = 0 then StreamKind.uncompressed else StreamKind.compressed,
    length := (bs.drop 1).headD 0 }

/-- Modelled from the spec: a decompressor maps the compressed payload bytes
to the decoded bytes, or fails on malformed input. -/
def Decompressor : Type := List Nat → Option (List Nat)

/-- Modelled from the spec: invoking the decompressor with `src` (the shared
buffer) and `dst` (the compressed helper): it reads `src`'s valid region,
writes the fully decoded block into `dst`'s backing storage and sets `dst`'s
limit to the decoded length. -/
def applyDecompressor (dec : Decompressor) (src dst : StorageByteBuffer) :
    Option StorageByteBuffer :=
  match dec src.validBytes with
  | none => none
  | some out =>
      some { dst with data := out ++ dst.data.drop out.length, limit := out.length }

/-- State of a `ReadOnlyFileStream`: the bounded file cursor, the two buffer
objects (`buf0`, `buf1`) reachable through the pointers `helperPtr`
(`_compressed_helper`), `sharedPtr` (`*_shared_buffer`) and `uncompressedPtr`
(`_uncompressed`, nullable), the loaded-block file offset
(`currentCompressPosition`, sentinel `2 ^ 64 - 1` for "none"), the configured
capacity `_compress_buffer_size`, and the two byte counters of the statistics
sink (the elapsed-time counters are not modelled). -/
structure ReaderState where
  cursor : FileCursor
  buf0 : StorageByteBuffer
  buf1 : StorageByteBuffer
  helperPtr : Bool
  sharedPtr : Bool
  uncompressedPtr : Option Bool
  currentCompressPosition : Nat
  compressBufferSize : Nat
  compressedBytesRead : Nat
  uncompressedBytesRead : Nat
  deriving DecidableEq, Repr

/-- Dereference a buffer pointer. -/
def ReaderState.getBuf (s : ReaderState) (p : Bool) : StorageByteBuffer :=
  if p then s.buf1 else s.buf0

/-- Store through a buffer pointer. -/
def ReaderState.setBuf (s : ReaderState) (p : Bool) (b : StorageByteBuffer) :
    ReaderState :=
  if p then { s with buf1 := b } else { s with buf0 := b }

/-- The buffer currently named by `_compressed_helper`. -/
def ReaderState.helperBuf (s : ReaderState) : StorageByteBuffer :=
  s.getBuf s.helperPtr

/-- The buffer currently named by `*_shared_buffer`. -/
def ReaderState.sharedBuf (s : ReaderState) : StorageByteBuffer :=
  s.getBuf s.sharedPtr

/-- Store through `_compressed_helper`. -/
def ReaderState.setHelperBuf (s : ReaderState) (b : StorageByteBuffer) :
    ReaderState :=
  s.setBuf s.helperPtr b

/-- Store through `*_shared_buffer`. -/
def ReaderState.setSharedBuf (s : ReaderState) (b : StorageByteBuffer) :
    ReaderState :=
  s.setBuf s.sharedPtr b

/-- `_uncompressed->remaining()` with the null pointer reading as `0`
(only ever consulted behind a null check in the source). -/
def ReaderState.activeRemaining (s : ReaderState) : Nat :=
  match s.uncompressedPtr with
  | none => 0
  | some p => (s.getBuf p).remaining

/-- The unconsumed decoded bytes currently exposed through `_uncompressed`
(empty when no block is loaded). -/
def ReaderState.activeSlice (s : ReaderState) : List Nat :=
  match s.uncompressedPtr with
  | none => []
  | some p => (s.getBuf p).validBytes

/-- `_uncompressed->position()` with the null pointer reading as `0`. -/
def ReaderState.activePosition (s : ReaderState) : Nat :=
  match s.uncompressedPtr with
  | none => 0
  | some p => (s.getBuf p).position

/-- `_uncompressed->limit()` with the null pointer reading as `0`. -/
def ReaderState.activeLimit (s : ReaderState) : Nat :=
  match s.uncompressedPtr with
  | none => 0
  | some p => (s.getBuf p).limit

/-- Buffer well-formedness of the active buffer (`true` when none loaded). -/
def ReaderState.activeWf (s : ReaderState) : Bool :=
  match s.uncompressedPtr with
  | none => true
  | some p => (s.getBuf p).wfb

/-- `ReadOnlyFileStream::_fill_compressed(size_t length)`: reject with
`OutOfBounds` when the header length exceeds `_compress_buffer_size`,
otherwise read `length` bytes from the cursor into the shared buffer's
backing storage and reset its position to `0` and its limit to `length`. -/
def ReaderState.fillCompressed (s : ReaderState) (length : Nat) :
    Option Err × ReaderState :=
  if s.compressBufferSize < length then
    (some Err.outOfBounds, s)
  else
    match s.cursor.read length with
    | none => (some Err.ioError, s)
    | some (bytes, c') =>
        let sb := s.sharedBuf
        let sb := { sb with
          data := bytes ++ sb.data.drop length, position := 0, limit := length }
        (none, { s.setSharedBuf sb with cursor := c' })

/-- Tail of `_assure_data` common to both block kinds: account the decoded
bytes, point `_uncompressed` at the compressed helper and record the loaded
block's file offset. -/
def assureFinish (s : ReaderState) (fileCursorUsed : Nat) :
    Option Err × ReaderState :=
  (none, { s with
    uncompressedBytesRead := s.uncompressedBytesRead + s.helperBuf.limit,
    uncompressedPtr := some s.helperPtr,
    currentCompressPosition := fileCursorUsed })

/-- Loading part of `_assure_data`: EOF test, header read, payload fill, and
the RAW pointer exchange or the decompression into the helper buffer. -/
def assureDataLoad (dec : Decompressor) (s : ReaderState) :
    Option Err × ReaderState :=
  if s.cursor.eof then
    (some Err.streamEof, s)
  else
    let fileCursorUsed := s.cursor.position
    match s.cursor.read streamHeadSize with
    | none => (some Err.ioError, s)
    | some (hb, c1) =>
        let header := decodeHead hb
        let s1 := { s with cursor := c1 }
        match s1.fillCompressed header.length with
        | (some e, s2) => (some e, s2)
        | (none, s2) =>
            let s3 := { s2 with
              compressedBytesRead :=
                s2.compressedBytesRead + streamHeadSize + header.length }
            match header.type with
            | StreamKind.uncompressed =>
                let s4 := { s3 with
                  helperPtr := s3.sharedPtr, sharedPtr := s3.helperPtr }
                assureFinish s4 fileCursorUsed
            | StreamKind.compressed =>
                let hb0 := s3.helperBuf
                let hb1 := { hb0 with position := 0, limit := s3.compressBufferSize }
                let s4 := s3.setHelperBuf hb1
                match applyDecompressor dec s4.sharedBuf s4.helperBuf with
                | none => (some Err.decompressError, s4)
                | some outBuf => assureFinish (s4.setHelperBuf outBuf) fileCursorUsed

/-- `ReadOnlyFileStream::_assure_data()`: return at once when the active
buffer still has unread bytes, otherwise load the next block. -/
def assureData (dec : Decompressor) (s : ReaderState) :
    Option Err × ReaderState :=
  match s.uncompressedPtr with
  | some p =>
      if 0 < (s.getBuf p).remaining then (none, s) else assureDataLoad dec s
  | none => assureDataLoad dec s

/-- Modelled from the spec: `PositionProvider::get_next()`, an ordered pull
interface over a list of position values. -/
def getNext (prov : List Nat) : Nat × List Nat :=
  (prov.headD 0, prov.tail)

/-- Final step of `seek`: `_uncompressed->set_position(uncompressed_bytes)`,
propagating a repositioning failure. -/
def seekSetPosition (s : ReaderState) (n : Nat) : Option Err × ReaderState :=
  match s.uncompressedPtr with
  | none => (some Err.nullPointer, s)
  | some p =>
      match (s.getBuf p).setPosition n with
      | none => (some Err.positionError, s)
      | some b => (none, s.setBuf p b)

/-- `ReadOnlyFileStream::seek(PositionProvider*)`: pull the compressed file
offset then the uncompressed in-block offset from the provider; reuse the
resident block when the recorded offset matches and `_uncompressed` is
non-null, otherwise seek the cursor, clear `_uncompressed` and reload through
`_assure_data` (propagating `StreamEof` and other errors); finally reposition
the active buffer.  Returns the status, the new state and the rest of the
provider. -/
def seek (dec : Decompressor) (s : ReaderState) (prov : List Nat) :
    Option Err × ReaderState × List Nat :=
  let n1 := getNext prov
  let compressedPosition := n1.1
  let n2 := getNext n1.2
  let uncompressedBytes := n2.1
  let prov2 := n2.2
  if s.currentCompressPosition = compressedPosition ∧ s.uncompressedPtr.isSome then
    let r := seekSetPosition s uncompressedBytes
    (r.1, r.2, prov2)
  else
    let s1 := { s with
      cursor := s.cursor.seek compressedPosition, uncompressedPtr := none }
    match assureData dec s1 with
    | (some e, s2) => (some e, s2, prov2)
    | (none, s2) =>
        let r := seekSetPosition s2 uncompressedBytes
        (r.1, r.2, prov2)

/-- Modelled from the spec (reference for the position-source protocol of
`seek`): repositioning to an explicitly given pair
`(block_file_offset, byte_offset_within_decoded_block)`, the two coordinates
passed in that fixed order as plain arguments instead of being pulled from a
provider. -/
def seekToPair (dec : Decompressor) (s : ReaderState)
    (blockFileOffset byteOffset : Nat) : Option Err × ReaderState :=
  if s.currentCompressPosition = blockFileOffset ∧ s.uncompressedPtr.isSome then
    seekSetPosition s byteOffset
  else
    let s1 := { s with
      cursor := s.cursor.seek blockFileOffset, uncompressedPtr := none }
    match assureData dec s1 with
    | (some e, s2) => (some e, s2)
    | (none, s2) => seekSetPosition s2 byteOffset

/-- Loop body of `skip`: consume `min(remaining, byte_to_skip)` from the
active buffer, decrement the counter, call `_assure_data`, and continue while
the counter is nonzero and the status is OK (`do/while` of the source).  The
fuel bounds the iteration count; `skip` supplies fuel strictly larger than
any possible number of iterations, so the `outOfFuel` branch is
unreachable. -/
def skipLoop (dec : Decompressor) :
    Nat → ReaderState → Nat → Option Err × ReaderState
  | 0, s, _ => (some Err.outOfFuel, s)
  | fuel + 1, s, byteToSkip =>
      match s.uncompressedPtr with
      | none => (some Err.nullPointer, s)
      | some p =>
          let b := s.getBuf p
          let skipByte := min b.remaining byteToSkip
          let s1 := s.setBuf p ((b.setPosition (b.position + skipByte)).getD b)
          let byteToSkip1 := byteToSkip - skipByte
          let r := assureData dec s1
          if byteToSkip1 ≠ 0 ∧ r.1 = none then skipLoop dec fuel r.2 byteToSkip1
          else (r.1, r.2)

/-- `ReadOnlyFileStream::skip(uint64_t)`: ensure a block is loaded, then run
the consume loop. -/
def skip (dec : Decompressor) (s : ReaderState) (skipLength : Nat) :
    Option Err × ReaderState :=
  match assureData dec s with
  | (some e, s1) => (some e, s1)
  | (none, s1) => skipLoop dec (skipLength + s1.cursor.remain + 2) s1 skipLength

/-- `ReadOnlyFileStream::available()`: bytes remaining in the file-level
bound. -/
def ReaderState.available (s : ReaderState) : Nat :=
  s.cursor.remain

/-- A fresh reader over a bound region (the constructor together with the
buffer allocation the spec attributes to initialization): nothing loaded,
offset sentinel `2 ^ 64 - 1`, capacity `compress_buffer_size +
sizeof(StreamHead)`, helper and shared buffer objects distinct. -/
def mkReader (content : List Nat) (compressBufferSize : Nat)
    (helperData sharedData : List Nat) : ReaderState :=
  { cursor := { content := content, pos := 0, readCount := 0 },
    buf0 := { data := helperData, position := 0, limit := helperData.length },
    buf1 := { data := sharedData, position := 0, limit := sharedData.length },
    helperPtr := false,
    sharedPtr := true,
    uncompressedPtr := none,
    currentCompressPosition := 2 ^ 64 - 1,
    compressBufferSize := compressBufferSize + streamHeadSize,
    compressedBytesRead := 0,
    uncompressedBytesRead := 0 }

/-- A caller-side consume of everything the active buffer currently exposes:
take the valid bytes and advance the buffer's position to its limit. -/
def consumeActive (s : ReaderState) : List Nat × ReaderState :=
  match s.uncompressedPtr with
  | none => ([], s)
  | some p =>
      let b := s.getBuf p
      (b.validBytes, s.setBuf p { b with position := b.limit })

/-- Caller-side sequential read-out of the whole stream: repeatedly
`_assure_data` then consume the active buffer, until an error (normally
`StreamEof`) stops the loop; returns the bytes read, the final status and the
final state. -/
def readAll (dec : Decompressor) :
    Nat → ReaderState → List Nat × Option Err × ReaderState
  | 0, s => ([], none, s)
  | fuel + 1, s =>
      match assureData dec s with
      | (some e, s') => ([], some e, s')
      | (none, s') =>
          let c := consumeActive s'
          let r := readAll dec fuel c.2
          (c.1 ++ r.1, r.2.1, r.2.2)

/-- A trivial concrete decompressor: the identity map. -/
def decompressId : Decompressor := fun bs => some bs

/-- A concrete decompressor that doubles its input (a toy compression whose
decoded form differs from the stored form). -/
def decompressDup : Decompressor := fun bs => some (bs ++ bs)

/-- A concrete decompressor that rejects every input. -/
def decompressNone : Decompressor := fun _ => none

/-- An on-disk block for specification purposes: its kind, its stored
(on-disk) payload and its decoded payload. -/
structure Block where
  kind : StreamKind
  stored : List Nat
  decoded : List Nat
  deriving DecidableEq, Repr

/-- The header written before a block's payload. -/
def Block.header (b : Block) : StreamHead :=
  { type := b.kind, length := b.stored.length }

/-- The on-disk encoding of one block: header then payload. -/
def encodeBlock (b : Block) : List Nat :=
  encodeHead b.header ++ b.stored

/-- Well-formedness of a block with respect to a decompressor and the
configured capacity: the stored payload fits the capacity, a RAW block's
decoded payload is its stored payload, and the decompressor inverts a
COMPRESSED block's stored payload to its decoded payload. -/
def Block.wf (dec : Decompressor) (cap : Nat) (b : Block) : Prop :=
  b.stored.length ≤ cap ∧
  (b.kind = StreamKind.uncompressed → b.decoded = b.stored) ∧
  (b.kind = StreamKind.compressed → dec b.stored = some b.decoded)

instance (dec : Decompressor) (cap : Nat) (b : Block) :
    Decidable (b.wf dec cap) := by
  unfold Block.wf
  infer_instance

/-- The concatenation of the decoded payloads of a block sequence. -/
def decodedConcat (blocks : List Block) : List Nat :=
  (blocks.map Block.decoded).flatten

/-- Configuration invariant tying a reader state to the remaining stream: the
unread part of the bound region is the encoding of `blocks`, the cursor is in
bounds, the two buffer pointers are distinct, and the active buffer is
well-formed and exposes exactly `cur`. -/
def Conf (s : ReaderState) (cur : List Nat) (blocks : List Block) : Prop :=
  s.cursor.content.drop s.cursor.pos = (blocks.map encodeBlock).flatten ∧
  s.cursor.pos ≤ s.cursor.content.length ∧
  s.helperPtr ≠ s.sharedPtr ∧
  s.activeSlice = cur ∧
  s.activeWf = true

instance (s : ReaderState) (cur : List Nat) (blocks : List Block) :
    Decidable (Conf s cur blocks) := by
  unfold Conf
  infer_instance

/-! ### Pointer and record bookkeeping lemmas -/

@[simp] theorem getBuf_setBuf_same (s : ReaderState) (p : Bool)
    (b : StorageByteBuffer) : (s.setBuf p b).getBuf p = b := by
  cases p <;> rfl

theorem getBuf_setBuf_ne (s : ReaderState) {p q : Bool} (h : p ≠ q)
    (b : StorageByteBuffer) : (s.setBuf p b).getBuf q = s.getBuf q := by
  cases p <;> cases q <;> simp_all [ReaderState.setBuf, ReaderState.getBuf]

@[simp] theorem setBuf_cursor (s : ReaderState) (p : Bool)
    (b : StorageByteBuffer) : (s.setBuf p b).cursor = s.cursor := by
  cases p <;> rfl

@[simp] theorem setBuf_helperPtr (s : ReaderState) (p : Bool)
    (b : StorageByteBuffer) : (s.setBuf p b).helperPtr = s.helperPtr := by
  cases p <;> rfl

@[simp] theorem setBuf_sharedPtr (s : ReaderState) (p : Bool)
    (b : StorageByteBuffer) : (s.setBuf p b).sharedPtr = s.sharedPtr := by
  cases p <;> rfl

@[simp] theorem setBuf_uncompressedPtr (s : ReaderState) (p : Bool)
    (b : StorageByteBuffer) : (s.setBuf p b).uncompressedPtr = s.uncompressedPtr := by
  cases p <;> rfl

@[simp] theorem setBuf_ccp (s : ReaderState) (p : Bool)
    (b : StorageByteBuffer) :
    (s.setBuf p b).currentCompressPosition = s.currentCompressPosition := by
  cases p <;> rfl

@[simp] theorem setBuf_cap (s : ReaderState) (p : Bool)
    (b : StorageByteBuffer) :
    (s.setBuf p b).compressBufferSize = s.compressBufferSize := by
  cases p <;> rfl

@[simp] theorem setBuf_cbr (s : ReaderState) (p : Bool)
    (b : StorageByteBuffer) :
    (s.setBuf p b).compressedBytesRead = s.compressedBytesRead := by
  cases p <;> rfl

@[simp] theorem setBuf_ubr (s : ReaderState) (p : Bool)
    (b : StorageByteBuffer) :
    (s.setBuf p b).uncompressedBytesRead = s.uncompressedBytesRead := by
  cases p <;> rfl

/-! ### Cursor lemmas -/

theorem read_spec (c : FileCursor) (n : Nat) (h : c.pos + n ≤ c.content.length) :
    c.read n = some ((c.content.drop c.pos).take n,
      { c with pos := c.pos + n, readCount := c.readCount + 1 }) := by
  simp [FileCursor.read, FileCursor.length, h]

theorem read_none (c : FileCursor) (n : Nat) (h : c.content.length < c.pos + n) :
    c.read n = none := by
  simp [FileCursor.read, FileCursor.length]
  omega

theorem eof_false (c : FileCursor) (h : c.pos < c.content.length) :
    c.eof = false := by
  simp [FileCursor.eof, FileCursor.length]
  omega

theorem eof_true (c : FileCursor) (h : c.content.length ≤ c.pos) :
    c.eof = true := by
  simp [FileCursor.eof, FileCursor.length, h]

/-! ### Early-return and EOF behaviour of `_assure_data` -/

theorem assureData_early (dec : Decompressor) (s : ReaderState) (p : Bool)
    (hp : s.uncompressedPtr = some p) (h : 0 < (s.getBuf p).remaining) :
    assureData dec s = (none, s) := by
  simp [assureData, hp, h]

theorem assureData_eofStep (dec : Decompressor) (s : ReaderState)
    (h0 : s.activeRemaining = 0) (he : s.cursor.eof = true) :
    assureData dec s = (some Err.streamEof, s) := by
  unfold assureData
  cases hp : s.uncompressedPtr with
  | none => simp [assureDataLoad, he]
  | some p =>
      have hr : (s.getBuf p).remaining = 0 := by
        simpa [ReaderState.activeRemaining, hp] using h0
      simp [hr, assureDataLoad, he]

theorem assureData_toLoad (dec : Decompressor) (s : ReaderState)
    (h0 : s.activeRemaining = 0) :
    assureData dec s = assureDataLoad dec s := by
  unfold assureData
  cases hp : s.uncompressedPtr with
  | none => rfl
  | some p =>
      have hr : (s.getBuf p).remaining = 0 := by
        simpa [ReaderState.activeRemaining, hp] using h0
      simp [hr]

/-! ### The block-load step of `_assure_data` -/

theorem length_facts (s : ReaderState) (blk : Block) (rest : List Nat)
    (hdrop : s.cursor.content.drop s.cursor.pos = encodeBlock blk ++ rest) :
    s.cursor.pos + streamHeadSize + blk.stored.length ≤ s.cursor.content.length ∧
    s.cursor.pos < s.cursor.content.length := by
  have hL := congrArg List.length hdrop
  simp [List.length_drop, encodeBlock, encodeHead] at hL
  simp only [streamHeadSize]
  constructor <;> omega

theorem drop_after_header (s : ReaderState) (blk : Block) (rest : List Nat)
    (hdrop : s.cursor.content.drop s.cursor.pos = encodeBlock blk ++ rest) :
    s.cursor.content.drop (s.cursor.pos + streamHeadSize) = blk.stored ++ rest := by
  rw [← List.drop_drop, hdrop]
  simp [encodeBlock, encodeHead, streamHeadSize]

theorem assure_load_raw (dec : Decompressor) (s : ReaderState) (blk : Block)
    (rest : List Nat)
    (hrem : s.activeRemaining = 0)
    (hdrop : s.cursor.content.drop s.cursor.pos = encodeBlock blk ++ rest)
    (hkind : blk.kind = StreamKind.uncompressed)
    (hcap : blk.stored.length ≤ s.compressBufferSize) :
    assureData dec s =
      (none,
       { s.setSharedBuf
           { s.sharedBuf with
               data := blk.stored ++ s.sharedBuf.data.drop blk.stored.length,
               position := 0, limit := blk.stored.length } with
          cursor := { s.cursor with
            pos := s.cursor.pos + streamHeadSize + blk.stored.length,
            readCount := s.cursor.readCount + 2 },
          helperPtr := s.sharedPtr,
          sharedPtr := s.helperPtr,
          uncompressedPtr := some s.sharedPtr,
          currentCompressPosition := s.cursor.pos,
          compressedBytesRead :=
            s.compressedBytesRead + streamHeadSize + blk.stored.length,
          uncompressedBytesRead :=
            s.uncompressedBytesRead + blk.stored.length }) := by
  obtain ⟨hlenAll, hposlt⟩ := length_facts s blk rest hdrop
  have hlen2 : s.cursor.pos + streamHeadSize ≤ s.cursor.content.length := by omega
  have hdrop' : s.cursor.content.drop s.cursor.pos =
      0 :: blk.stored.length :: (blk.stored ++ rest) := by
    simpa [encodeBlock, encodeHead, Block.header, hkind] using hdrop
  have e1 : s.cursor.read streamHeadSize = some ([0, blk.stored.length],
      { s.cursor with
        pos := s.cursor.pos + streamHeadSize,
        readCount := s.cursor.readCount + 1 }) := by
    rw [read_spec s.cursor streamHeadSize hlen2, hdrop']
    simp [streamHeadSize]
  have e2 : decodeHead [0, blk.stored.length] =
      { type := StreamKind.uncompressed, length := blk.stored.length } := by
    simp [decodeHead]
  have e3 : FileCursor.read
      { s.cursor with
        pos := s.cursor.pos + streamHeadSize,
        readCount := s.cursor.readCount + 1 } blk.stored.length =
      some (blk.stored,
        { s.cursor with
          pos := s.cursor.pos + streamHeadSize + blk.stored.length,
          readCount := s.cursor.readCount + 2 }) := by
    rw [read_spec _ blk.stored.length (by simpa using hlenAll)]
    have hda := drop_after_header s blk rest hdrop
    simp only
    rw [hda, List.take_left]
  have hnotlt : ¬ s.compressBufferSize < blk.stored.length := by omega
  rw [assureData_toLoad dec s hrem]
  unfold assureDataLoad
  rw [eof_false s.cursor hposlt]
  simp only [Bool.false_eq_true, if_false, e1, e2, FileCursor.position,
    ReaderState.fillCompressed, if_neg hnotlt, e3]
  unfold assureFinish
  simp only [ReaderState.sharedBuf, ReaderState.setSharedBuf, ReaderState.helperBuf,
    ReaderState.getBuf, ReaderState.setBuf]
  by_cases hsp : s.sharedPtr <;> by_cases hhp : s.helperPtr <;>
    simp [hsp, hhp]

theorem assure_load_comp (dec : Decompressor) (s : ReaderState) (blk : Block)
    (rest : List Nat)
    (hrem : s.activeRemaining = 0)
    (hdrop : s.cursor.content.drop s.cursor.pos = encodeBlock blk ++ rest)
    (hkind : blk.kind = StreamKind.compressed)
    (hcap : blk.stored.length ≤ s.compressBufferSize)
    (hdist : s.helperPtr ≠ s.sharedPtr)
    (hdc : dec blk.stored = some blk.decoded) :
    assureData dec s =
      (none,
       { (s.setSharedBuf
           { s.sharedBuf with
               data := blk.stored ++ s.sharedBuf.data.drop blk.stored.length,
               position := 0, limit := blk.stored.length }).setHelperBuf
           { s.helperBuf with
               data := blk.decoded ++ s.helperBuf.data.drop blk.decoded.length,
               position := 0, limit := blk.decoded.length } with
          cursor := { s.cursor with
            pos := s.cursor.pos + streamHeadSize + blk.stored.length,
            readCount := s.cursor.readCount + 2 },
          uncompressedPtr := some s.helperPtr,
          currentCompressPosition := s.cursor.pos,
          compressedBytesRead :=
            s.compressedBytesRead + streamHeadSize + blk.stored.length,
          uncompressedBytesRead :=
            s.uncompressedBytesRead + blk.decoded.length }) := by
  obtain ⟨hlenAll, hposlt⟩ := length_facts s blk rest hdrop
  have hlen2 : s.cursor.pos + streamHeadSize ≤ s.cursor.content.length := by omega
  have hdrop' : s.cursor.content.drop s.cursor.pos =
      1 :: blk.stored.length :: (blk.stored ++ rest) := by
    simpa [encodeBlock, encodeHead, Block.header, hkind] using hdrop
  have e1 : s.cursor.read streamHeadSize = some ([1, blk.stored.length],
      { s.cursor with
        pos := s.cursor.pos + streamHeadSize,
        readCount := s.cursor.readCount + 1 }) := by
    rw [read_spec s.cursor streamHeadSize hlen2, hdrop']
    simp [streamHeadSize]
  have e2 : decodeHead [1, blk.stored.length] =
      { type := StreamKind.compressed, length := blk.stored.length } := by
    simp [decodeHead]
  have e3 : FileCursor.read
      { s.cursor with
        pos := s.cursor.pos + streamHeadSize,
        readCount := s.cursor.readCount + 1 } blk.stored.length =
      some (blk.stored,
        { s.cursor with
          pos := s.cursor.pos + streamHeadSize + blk.stored.length,
          readCount := s.cursor.readCount + 2 }) := by
    rw [read_spec _ blk.stored.length (by simpa using hlenAll)]
    have hda := drop_after_header s blk rest hdrop
    simp only
    rw [hda, List.take_left]
  have hnotlt : ¬ s.compressBufferSize < blk.stored.length := by omega
  rw [assureData_toLoad dec s hrem]
  unfold assureDataLoad
  rw [eof_false s.cursor hposlt]
  simp only [Bool.false_eq_true, if_false, e1, e2, FileCursor.position,
    ReaderState.fillCompressed, if_neg hnotlt, e3]
  unfold assureFinish applyDecompressor
  simp only [ReaderState.sharedBuf, ReaderState.setSharedBuf, ReaderState.helperBuf,
    ReaderState.setHelperBuf, ReaderState.getBuf, ReaderState.setBuf,
    StorageByteBuffer.validBytes]
  by_cases hsp : s.sharedPtr <;> by_cases hhp : s.helperPtr <;>
    simp_all [List.take_left, hdc]

/-! ### Conf invariant: step lemmas -/

theorem conf_activeRemaining (s : ReaderState) (cur : List Nat)
    (blocks : List Block) (hc : Conf s cur blocks) :
    s.activeRemaining = cur.length := by
  obtain ⟨-, -, -, hslice, hwf⟩ := hc
  cases hp : s.uncompressedPtr with
  | none =>
      simp [ReaderState.activeSlice, hp] at hslice
      simp [ReaderState.activeRemaining, hp, hslice]
  | some p =>
      simp [ReaderState.activeSlice, hp] at hslice
      simp [ReaderState.activeWf, hp, StorageByteBuffer.wfb] at hwf
      simp [ReaderState.activeRemaining, hp, StorageByteBuffer.remaining, ← hslice,
        StorageByteBuffer.validBytes]
      omega

theorem conf_early (dec : Decompressor) (s : ReaderState) (cur : List Nat)
    (blocks : List Block) (hc : Conf s cur blocks) (hne : cur ≠ []) :
    assureData dec s = (none, s) := by
  cases hp : s.uncompressedPtr with
  | none =>
      obtain ⟨-, -, -, hslice, -⟩ := hc
      simp [ReaderState.activeSlice, hp] at hslice
      exact absurd hslice hne
  | some p =>
      have hr := conf_activeRemaining s cur blocks hc
      simp [ReaderState.activeRemaining, hp] at hr
      refine assureData_early dec s p hp ?_
      rw [hr]
      exact List.length_pos.mpr hne

theorem conf_eof (dec : Decompressor) (s : ReaderState)
    (hc : Conf s [] []) : assureData dec s = (some Err.streamEof, s) := by
  have h0 : s.activeRemaining = 0 := by
    simpa using conf_activeRemaining s [] [] hc
  obtain ⟨hdrop, -, -, -, -⟩ := hc
  simp at hdrop
  exact assureData_eofStep dec s h0 (eof_true s.cursor hdrop)

theorem conf_consume (s : ReaderState) (cur : List Nat) (blocks : List Block)
    (hc : Conf s cur blocks) :
    (consumeActive s).1 = cur ∧
    Conf (consumeActive s).2 [] blocks ∧
    (consumeActive s).2.cursor = s.cursor ∧
    (consumeActive s).2.compressBufferSize = s.compressBufferSize ∧
    (consumeActive s).2.uncompressedPtr = s.uncompressedPtr := by
  obtain ⟨hdrop, hpos, hdist, hslice, hwf⟩ := hc
  cases hp : s.uncompressedPtr with
  | none =>
      simp [ReaderState.activeSlice, hp] at hslice
      refine ⟨?_, ⟨?_, ?_, ?_, ?_, ?_⟩, ?_, ?_, ?_⟩ <;>
        simp [consumeActive, hp, hslice, hdrop, hpos, hdist,
          ReaderState.activeSlice, ReaderState.activeWf, hwf]
  | some p =>
      simp [ReaderState.activeSlice, hp] at hslice
      simp [ReaderState.activeWf, hp, StorageByteBuffer.wfb] at hwf
      refine ⟨?_, ⟨?_, ?_, ?_, ?_, ?_⟩, ?_, ?_, ?_⟩
      · simp [consumeActive, hp, hslice]
      · simpa [consumeActive, hp] using hdrop
      · simpa [consumeActive, hp] using hpos
      · simpa [consumeActive, hp] using hdist
      · simp [consumeActive, hp, ReaderState.activeSlice,
          StorageByteBuffer.validBytes, List.drop_eq_nil_iff]
      · simp [consumeActive, hp, ReaderState.activeWf, StorageByteBuffer.wfb]
        omega
      · simp [consumeActive, hp]
      · simp [consumeActive, hp]
      · simp [consumeActive, hp]

theorem conf_load (dec : Decompressor) (s : ReaderState) (blk : Block)
    (blocks : List Block)
    (hc : Conf s [] (blk :: blocks))
    (hwf : blk.wf dec s.compressBufferSize) :
    (assureData dec s).1 = none ∧
    Conf (assureData dec s).2 blk.decoded blocks ∧
    (assureData dec s).2.uncompressedPtr = some (assureData dec s).2.helperPtr ∧
    (assureData dec s).2.compressBufferSize = s.compressBufferSize ∧
    (assureData dec s).2.cursor.content = s.cursor.content ∧
    (assureData dec s).2.cursor.pos =
      s.cursor.pos + streamHeadSize + blk.stored.length ∧
    (assureData dec s).2.cursor.readCount = s.cursor.readCount + 2 ∧
    (assureData dec s).2.currentCompressPosition = s.cursor.pos ∧
    (assureData dec s).2.activePosition = 0 ∧
    (assureData dec s).2.activeLimit = blk.decoded.length := by
  have hrem : s.activeRemaining = 0 := by
    simpa using conf_activeRemaining _ _ _ hc
  obtain ⟨hdrop0, hpos, hdist, -, -⟩ := hc
  have hdrop : s.cursor.content.drop s.cursor.pos =
      encodeBlock blk ++ (blocks.map encodeBlock).flatten := by
    simpa using hdrop0
  obtain ⟨hlenAll, hposlt⟩ := length_facts s blk _ hdrop
  have hda := drop_after_header s blk _ hdrop
  have hdroprest : s.cursor.content.drop
      (s.cursor.pos + streamHeadSize + blk.stored.length) =
      (blocks.map encodeBlock).flatten := by
    rw [← List.drop_drop, hda, List.drop_left]
  obtain ⟨hcap, hraw, hcomp⟩ := hwf
  cases hkind : blk.kind with
  | uncompressed =>
      have hdec := hraw hkind
      rw [assure_load_raw dec s blk _ hrem hdrop hkind hcap]
      refine ⟨rfl, ⟨?_, ?_, ?_, ?_, ?_⟩, ?_, ?_, ?_, ?_, ?_, ?_, ?_, ?_⟩ <;>
        by_cases hsp : s.sharedPtr <;> by_cases hhp : s.helperPtr <;>
          simp_all [ReaderState.setSharedBuf, ReaderState.setBuf, ReaderState.getBuf,
            ReaderState.activeSlice, ReaderState.activeWf, ReaderState.activePosition,
            ReaderState.activeLimit, StorageByteBuffer.validBytes,
            StorageByteBuffer.wfb, ReaderState.sharedBuf, ReaderState.helperBuf]
  | compressed =>
      have hdec := hcomp hkind
      rw [assure_load_comp dec s blk _ hrem hdrop hkind hcap hdist hdec]
      refine ⟨rfl, ⟨?_, ?_, ?_, ?_, ?_⟩, ?_, ?_, ?_, ?_, ?_, ?_, ?_, ?_⟩ <;>
        by_cases hsp : s.sharedPtr <;> by_cases hhp : s.helperPtr <;>
          simp_all [ReaderState.setSharedBuf, ReaderState.setHelperBuf,
            ReaderState.setBuf, ReaderState.getBuf,
            ReaderState.activeSlice, ReaderState.activeWf, ReaderState.activePosition,
            ReaderState.activeLimit, StorageByteBuffer.validBytes,
            StorageByteBuffer.wfb, ReaderState.sharedBuf, ReaderState.helperBuf]

/-! ### Sequential read-out of a well-formed stream -/

theorem readAll_empty (dec : Decompressor) (blocks : List Block) :
    ∀ (s : ReaderState) (fuel : Nat),
    Conf s [] blocks →
    (∀ b ∈ blocks, b.wf dec s.compressBufferSize) →
    blocks.length + 1 ≤ fuel →
    (readAll dec fuel s).1 = decodedConcat blocks ∧
    (readAll dec fuel s).2.1 = some Err.streamEof := by
  induction blocks with
  | nil =>
      intro s fuel hc hwf hfuel
      obtain ⟨f, rfl⟩ : ∃ f, fuel = f + 1 := ⟨fuel - 1, by omega⟩
      simp [readAll, conf_eof dec s hc, decodedConcat]
  | cons blk bs ih =>
      intro s fuel hc hwf hfuel
      obtain ⟨f, rfl⟩ : ∃ f, fuel = f + 1 := ⟨fuel - 1, by omega⟩
      obtain ⟨h1, hconf, -, hcap, -⟩ :=
        conf_load dec s blk bs hc (hwf blk (by simp))
      rcases hr : assureData dec s with ⟨st, s'⟩
      rw [hr] at h1 hconf hcap
      simp at h1
      subst h1
      simp only at hconf hcap
      obtain ⟨hcons1, hcons2, -, hcons4, -⟩ := conf_consume s' blk.decoded bs hconf
      rcases hcons : consumeActive s' with ⟨bytes, s2⟩
      rw [hcons] at hcons1 hcons2 hcons4
      simp only at hcons1 hcons2 hcons4
      subst hcons1
      have hwf' : ∀ b ∈ bs, b.wf dec s2.compressBufferSize := by
        intro b hb
        rw [hcons4, hcap]
        exact hwf b (by simp [hb])
      obtain ⟨ih1, ih2⟩ := ih s2 f hcons2 hwf' (by simpa using hfuel)
      simp [readAll, hr, hcons, ih1, ih2, decodedConcat]

theorem readAll_conf (dec : Decompressor) (blocks : List Block) (cur : List Nat)
    (s : ReaderState) (fuel : Nat)
    (hc : Conf s cur blocks)
    (hwf : ∀ b ∈ blocks, b.wf dec s.compressBufferSize)
    (hfuel : blocks.length + 2 ≤ fuel) :
    (readAll dec fuel s).1 = cur ++ decodedConcat blocks ∧
    (readAll dec fuel s).2.1 = some Err.streamEof := by
  by_cases hcur : cur = []
  · subst hcur
    simpa using readAll_empty dec blocks s fuel hc hwf (by omega)
  · obtain ⟨f, rfl⟩ : ∃ f, fuel = f + 1 := ⟨fuel - 1, by omega⟩
    have hearly := conf_early dec s cur blocks hc hcur
    obtain ⟨hcons1, hcons2, -, hcons4, -⟩ := conf_consume s cur blocks hc
    rcases hcons : consumeActive s with ⟨bytes, s2⟩
    rw [hcons] at hcons1 hcons2 hcons4
    simp only at hcons1 hcons2 hcons4
    subst hcons1
    have hwf' : ∀ b ∈ blocks, b.wf dec s2.compressBufferSize := by
      intro b hb
      rw [hcons4]
      exact hwf b hb
    obtain ⟨ih1, ih2⟩ := readAll_empty dec blocks s2 f hcons2 hwf' (by omega)
    simp [readAll, hearly, hcons, ih1, ih2]

/-! ### The skip loop over a well-formed stream -/

theorem conf_skipByte (s : ReaderState) (cur : List Nat) (blocks : List Block)
    (p : Bool) (k : Nat)
    (hp : s.uncompressedPtr = some p) (hc : Conf s cur blocks)
    (hk : k ≤ cur.length) :
    ((s.getBuf p).setPosition ((s.getBuf p).position + k)).getD (s.getBuf p) =
      { s.getBuf p with position := (s.getBuf p).position + k } ∧
    Conf (s.setBuf p { s.getBuf p with position := (s.getBuf p).position + k })
      (cur.drop k) blocks := by
  obtain ⟨hdrop, hpos, hdist, hslice, hwfb⟩ := hc
  simp [ReaderState.activeSlice, hp] at hslice
  simp [ReaderState.activeWf, hp, StorageByteBuffer.wfb] at hwfb
  have hlen : cur.length = (s.getBuf p).limit - (s.getBuf p).position := by
    rw [← hslice]
    simp [StorageByteBuffer.validBytes]
    omega
  have hple : (s.getBuf p).position + k ≤ (s.getBuf p).limit := by omega
  constructor
  · simp [StorageByteBuffer.setPosition, hple]
  · refine ⟨by simpa using hdrop, by simpa using hpos, by simpa using hdist, ?_, ?_⟩
    · simp [ReaderState.activeSlice, hp, StorageByteBuffer.validBytes]
      rw [← hslice]
      simp [StorageByteBuffer.validBytes, ← List.drop_drop]
    · simp [ReaderState.activeWf, hp, StorageByteBuffer.wfb]
      omega

theorem decodedConcat_nil : decodedConcat [] = [] := rfl

theorem decodedConcat_cons (b : Block) (bs : List Block) :
    decodedConcat (b :: bs) = b.decoded ++ decodedConcat bs := by
  simp [decodedConcat]

theorem skipLoop_conf (dec : Decompressor) (blocks : List Block) :
    ∀ (cur : List Nat) (s : ReaderState) (n fuel : Nat),
    Conf s cur blocks →
    s.uncompressedPtr.isSome = true →
    (∀ b ∈ blocks, b.wf dec s.compressBufferSize) →
    (∀ b ∈ blocks, b.decoded ≠ []) →
    blocks.length + 1 ≤ fuel →
    ((n < cur.length + (decodedConcat blocks).length →
      (skipLoop dec fuel s n).1 = none ∧
      ∃ cur2 blocks2,
        Conf (skipLoop dec fuel s n).2 cur2 blocks2 ∧
        (∀ b ∈ blocks2, b.wf dec (skipLoop dec fuel s n).2.compressBufferSize) ∧
        cur2 ++ decodedConcat blocks2 = (cur ++ decodedConcat blocks).drop n ∧
        blocks2.length ≤ blocks.length) ∧
    (cur.length + (decodedConcat blocks).length ≤ n →
      (skipLoop dec fuel s n).1 = some Err.streamEof)) := by
  induction blocks with
  | nil =>
      intro cur s n fuel hc hsome hwf hne hfuel
      obtain ⟨f, rfl⟩ : ∃ f, fuel = f + 1 := ⟨fuel - 1, by omega⟩
      obtain ⟨p, hp⟩ := Option.isSome_iff_exists.mp hsome
      have hrem : (s.getBuf p).remaining = cur.length := by
        have := conf_activeRemaining s cur [] hc
        simpa [ReaderState.activeRemaining, hp] using this
      rcases Nat.lt_or_ge n cur.length with hlt | hge
      · obtain ⟨hgetd, hconf1⟩ :=
          conf_skipByte s cur [] p n hp hc (Nat.le_of_lt hlt)
        have hmin : min (s.getBuf p).remaining n = n := by
          rw [hrem]; omega
        have hearly : assureData dec
            (s.setBuf p { s.getBuf p with position := (s.getBuf p).position + n }) =
            (none, s.setBuf p
              { s.getBuf p with position := (s.getBuf p).position + n }) := by
          refine conf_early dec _ (cur.drop n) [] hconf1 ?_
          simp [List.drop_eq_nil_iff]
          omega
        have hstep : skipLoop dec (f + 1) s n =
            (none, s.setBuf p
              { s.getBuf p with position := (s.getBuf p).position + n }) := by
          simp only [skipLoop, hp, hmin, hgetd, Nat.sub_self, hearly]
          simp
        rw [hstep]
        constructor
        · intro hn
          refine ⟨by simp, cur.drop n, [], by simpa using hconf1, by simp, ?_, by simp⟩
          simp [decodedConcat_nil, List.drop_append_of_le_length (Nat.le_of_lt hlt)]
        · intro hn
          simp only [decodedConcat_nil, List.length_nil] at hn
          omega
      · obtain ⟨hgetd, hconf1⟩ := conf_skipByte s cur [] p cur.length hp hc le_rfl
        have hmin : min (s.getBuf p).remaining n = cur.length := by
          rw [hrem]; omega
        have heof : assureData dec
            (s.setBuf p
              { s.getBuf p with position := (s.getBuf p).position + cur.length }) =
            (some Err.streamEof, s.setBuf p
              { s.getBuf p with position := (s.getBuf p).position + cur.length }) := by
          refine conf_eof dec _ ?_
          simpa using hconf1
        have hstep : (skipLoop dec (f + 1) s n).1 = some Err.streamEof := by
          simp only [skipLoop, hp, hmin, hgetd, heof]
          simp
        constructor
        · intro hn
          simp only [decodedConcat_nil, List.length_nil] at hn
          omega
        · intro hn
          exact hstep
  | cons blk bs ih =>
      intro cur s n fuel hc hsome hwf hne hfuel
      obtain ⟨f, rfl⟩ : ∃ f, fuel = f + 1 := ⟨fuel - 1, by omega⟩
      obtain ⟨p, hp⟩ := Option.isSome_iff_exists.mp hsome
      have hrem : (s.getBuf p).remaining = cur.length := by
        have := conf_activeRemaining s cur (blk :: bs) hc
        simpa [ReaderState.activeRemaining, hp] using this
      have hdlen : 0 < blk.decoded.length :=
        List.length_pos.mpr (hne blk (by simp))
      rcases Nat.lt_or_ge n cur.length with hlt | hge
      · obtain ⟨hgetd, hconf1⟩ :=
          conf_skipByte s cur (blk :: bs) p n hp hc (Nat.le_of_lt hlt)
        have hmin : min (s.getBuf p).remaining n = n := by
          rw [hrem]; omega
        have hearly : assureData dec
            (s.setBuf p { s.getBuf p with position := (s.getBuf p).position + n }) =
            (none, s.setBuf p
              { s.getBuf p with position := (s.getBuf p).position + n }) := by
          refine conf_early dec _ (cur.drop n) (blk :: bs) hconf1 ?_
          simp [List.drop_eq_nil_iff]
          omega
        have hstep : skipLoop dec (f + 1) s n =
            (none, s.setBuf p
              { s.getBuf p with position := (s.getBuf p).position + n }) := by
          simp only [skipLoop, hp, hmin, hgetd, Nat.sub_self, hearly]
          simp
        rw [hstep]
        constructor
        · intro hn
          refine ⟨by simp, cur.drop n, blk :: bs, by simpa using hconf1, ?_, ?_, by simp⟩
          · intro b hb
            simpa using hwf b hb
          · simp [List.drop_append_of_le_length (Nat.le_of_lt hlt)]
        · intro hn
          omega
      · obtain ⟨hgetd, hconf1⟩ :=
          conf_skipByte s cur (blk :: bs) p cur.length hp hc le_rfl
        have hmin : min (s.getBuf p).remaining n = cur.length := by
          rw [hrem]; omega
        have hconf1' : Conf (s.setBuf p
            { s.getBuf p with position := (s.getBuf p).position + cur.length })
            [] (blk :: bs) := by
          simpa using hconf1
        have hwf1 : blk.wf dec (s.setBuf p
            { s.getBuf p with
              position := (s.getBuf p).position + cur.length }).compressBufferSize := by
          simpa using hwf blk (by simp)
        obtain ⟨hst, hconf2, hptr2, hcap2, -⟩ :=
          conf_load dec _ blk bs hconf1' hwf1
        rcases hr : assureData dec (s.setBuf p
            { s.getBuf p with
              position := (s.getBuf p).position + cur.length }) with ⟨st, s2⟩
        rw [hr] at hst hconf2 hptr2 hcap2
        simp only at hst hconf2 hptr2 hcap2
        subst hst
        have hcap2x : s2.compressBufferSize = s.compressBufferSize := by
          simpa using hcap2
        rcases Nat.eq_zero_or_pos (n - cur.length) with hzero | hposn
        · have hneq : n = cur.length := by omega
          have hstep : skipLoop dec (f + 1) s n = (none, s2) := by
            simp only [skipLoop, hp, hmin, hgetd]
            rw [hr]
            simp [hzero]
          rw [hstep]
          constructor
          · intro hn
            refine ⟨by simp, blk.decoded, bs, by simpa using hconf2, ?_, ?_, by simp⟩
            · intro b hb
              simp only [hcap2x]
              simpa using hwf b (by simp [hb])
            · subst hneq
              simp [decodedConcat_cons, List.drop_left]
          · intro hn
            exfalso
            simp only [decodedConcat_cons, List.length_append] at hn
            omega
        · have hne0 : ¬ (n - cur.length = 0) := by omega
          have hstep : skipLoop dec (f + 1) s n =
              skipLoop dec f s2 (n - cur.length) := by
            simp only [skipLoop, hp, hmin, hgetd]
            rw [hr]
            simp [hne0]
          rw [hstep]
          have hsome2 : s2.uncompressedPtr.isSome = true := by
            simp [hptr2]
          have hwf2 : ∀ b ∈ bs, b.wf dec s2.compressBufferSize := by
            intro b hb
            rw [hcap2x]
            simpa using hwf b (by simp [hb])
          have hne2 : ∀ b ∈ bs, b.decoded ≠ [] := by
            intro b hb
            exact hne b (by simp [hb])
          have hfuel2 : bs.length + 1 ≤ f := by
            simp only [List.length_cons] at hfuel
            omega
          have hdropn : (cur ++ decodedConcat (blk :: bs)).drop n =
              (blk.decoded ++ decodedConcat bs).drop (n - cur.length) := by
            have hsplit : n = cur.length + (n - cur.length) :=
              (Nat.add_sub_cancel' hge).symm
            rw [hsplit, ← List.drop_drop, List.drop_left]
            simp [decodedConcat_cons]
          obtain ⟨ih1, ih2⟩ := ih blk.decoded s2 (n - cur.length) f hconf2 hsome2
            hwf2 hne2 hfuel2
          constructor
          · intro hn
            have hn2 : n - cur.length <
                blk.decoded.length + (decodedConcat bs).length := by
              simp only [decodedConcat_cons, List.length_append] at hn
              omega
            obtain ⟨ihst, cur2, blocks2, ihconf, ihwf, iheq, ihlen⟩ := ih1 hn2
            refine ⟨ihst, cur2, blocks2, ihconf, ihwf, ?_, ?_⟩
            · rw [iheq, hdropn]
            · simp only [List.length_cons]
              omega
          · intro hn
            refine ih2 ?_
            simp only [decodedConcat_cons, List.length_append] at hn
            clear ih1
            omega

theorem encode_length_ge (blocks : List Block) :
    2 * blocks.length ≤ ((blocks.map encodeBlock).flatten).length := by
  induction blocks with
  | nil => simp
  | cons b bs ih =>
      have hb : (encodeBlock b).length = 2 + b.stored.length := by
        simp [encodeBlock, encodeHead]
        omega
      simp only [List.map_cons, List.flatten_cons, List.length_append,
        List.length_cons]
      omega

theorem conf_remain (s : ReaderState) (cur : List Nat) (blocks : List Block)
    (hc : Conf s cur blocks) :
    s.cursor.remain = ((blocks.map encodeBlock).flatten).length := by
  obtain ⟨hdrop, hpos, -, -, -⟩ := hc
  have := congrArg List.length hdrop
  simp only [List.length_drop] at this
  simp only [FileCursor.remain, FileCursor.length]
  omega

theorem skip_conf (dec : Decompressor) (s : ReaderState) (cur : List Nat)
    (blocks : List Block) (n : Nat)
    (hc : Conf s cur blocks)
    (hwf : ∀ b ∈ blocks, b.wf dec s.compressBufferSize)
    (hne : ∀ b ∈ blocks, b.decoded ≠ []) :
    (n < cur.length + (decodedConcat blocks).length →
      (skip dec s n).1 = none ∧
      ∃ cur2 blocks2,
        Conf (skip dec s n).2 cur2 blocks2 ∧
        (∀ b ∈ blocks2, b.wf dec (skip dec s n).2.compressBufferSize) ∧
        cur2 ++ decodedConcat blocks2 = (cur ++ decodedConcat blocks).drop n) ∧
    (cur.length + (decodedConcat blocks).length ≤ n →
      (skip dec s n).1 = some Err.streamEof) := by
  by_cases hcur : cur = []
  · subst hcur
    cases blocks with
    | nil =>
        have heof := conf_eof dec s hc
        have hskip : skip dec s n = (some Err.streamEof, s) := by
          simp [skip, heof]
        rw [hskip]
        constructor
        · intro hn
          simp [decodedConcat_nil] at hn
        · intro hn
          simp
    | cons blk bs =>
        obtain ⟨hst, hconf2, hptr2, hcap2, -⟩ :=
          conf_load dec s blk bs hc (hwf blk (by simp))
        rcases hr : assureData dec s with ⟨st, s2⟩
        rw [hr] at hst hconf2 hptr2 hcap2
        simp only at hst hconf2 hptr2 hcap2
        subst hst
        have hskip : skip dec s n = skipLoop dec (n + s2.cursor.remain + 2) s2 n := by
          simp [skip, hr]
        have hfuel : bs.length + 1 ≤ n + s2.cursor.remain + 2 := by
          have h1 := conf_remain s2 blk.decoded bs hconf2
          have h2 := encode_length_ge bs
          omega
        have hsome2 : s2.uncompressedPtr.isSome = true := by simp [hptr2]
        have hwf2 : ∀ b ∈ bs, b.wf dec s2.compressBufferSize := by
          intro b hb
          rw [hcap2]
          exact hwf b (by simp [hb])
        have hne2 : ∀ b ∈ bs, b.decoded ≠ [] := fun b hb => hne b (by simp [hb])
        obtain ⟨main1, main2⟩ := skipLoop_conf dec bs blk.decoded s2 n
          (n + s2.cursor.remain + 2) hconf2 hsome2 hwf2 hne2 hfuel
        rw [hskip]
        constructor
        · intro hn
          have hn2 : n < blk.decoded.length + (decodedConcat bs).length := by
            simp only [decodedConcat_cons, List.length_append, List.length_nil] at hn
            omega
          obtain ⟨m1, cur2, blocks2, mc, mw, me, -⟩ := main1 hn2
          refine ⟨m1, cur2, blocks2, mc, mw, ?_⟩
          rw [me]
          simp [decodedConcat_cons]
        · intro hn
          refine main2 ?_
          simp only [decodedConcat_cons, List.length_append, List.length_nil] at hn
          omega
  · have hearly := conf_early dec s cur blocks hc hcur
    have hsome : s.uncompressedPtr.isSome = true := by
      obtain ⟨-, -, -, hslice, -⟩ := hc
      cases hp : s.uncompressedPtr with
      | none =>
          simp [ReaderState.activeSlice, hp] at hslice
          exact absurd hslice hcur
      | some p => simp
    have hskip : skip dec s n = skipLoop dec (n + s.cursor.remain + 2) s n := by
      simp [skip, hearly]
    have hfuel : blocks.length + 1 ≤ n + s.cursor.remain + 2 := by
      have h1 := conf_remain s cur blocks hc
      have h2 := encode_length_ge blocks
      omega
    obtain ⟨main1, main2⟩ := skipLoop_conf dec blocks cur s n
      (n + s.cursor.remain + 2) hc hsome hwf hne hfuel
    rw [hskip]
    constructor
    · intro hn
      obtain ⟨m1, cur2, blocks2, mc, mw, me, -⟩ := main1 hn
      exact ⟨m1, cur2, blocks2, mc, mw, me⟩
    · exact main2

/-! ### Seek lemmas -/

theorem tail_tail_drop (l : List Nat) : l.tail.tail = l.drop 2 := by
  rcases l with - | ⟨x, - | ⟨y, r⟩⟩ <;> simp

theorem seek_fast (dec : Decompressor) (s : ReaderState) (a b : Nat)
    (rest : List Nat)
    (h1 : s.currentCompressPosition = a) (h2 : s.uncompressedPtr.isSome = true) :
    seek dec s (a :: b :: rest) =
      ((seekSetPosition s b).1, (seekSetPosition s b).2, rest) := by
  simp only [seek, getNext, List.headD, List.tail]
  rw [if_pos ⟨h1, h2⟩]

theorem seek_slow_err (dec : Decompressor) (s : ReaderState) (a b : Nat)
    (rest : List Nat) (e : Err) (s2 : ReaderState)
    (h : ¬ (s.currentCompressPosition = a ∧ s.uncompressedPtr.isSome = true))
    (hr : assureData dec
      { s with cursor := s.cursor.seek a, uncompressedPtr := none } =
      (some e, s2)) :
    seek dec s (a :: b :: rest) = (some e, s2, rest) := by
  simp only [seek, getNext, List.headD, List.tail]
  rw [if_neg h, hr]

theorem seek_slow_ok (dec : Decompressor) (s : ReaderState) (a b : Nat)
    (rest : List Nat) (s2 : ReaderState)
    (h : ¬ (s.currentCompressPosition = a ∧ s.uncompressedPtr.isSome = true))
    (hr : assureData dec
      { s with cursor := s.cursor.seek a, uncompressedPtr := none } =
      (none, s2)) :
    seek dec s (a :: b :: rest) =
      ((seekSetPosition s2 b).1, (seekSetPosition s2 b).2, rest) := by
  simp only [seek, getNext, List.headD, List.tail]
  rw [if_neg h, hr]

theorem seekSetPosition_ok (s : ReaderState) (n : Nat) (p : Bool)
    (hp : s.uncompressedPtr = some p) (hle : n ≤ (s.getBuf p).limit) :
    seekSetPosition s n =
      (none, s.setBuf p { s.getBuf p with position := n }) := by
  simp [seekSetPosition, hp, StorageByteBuffer.setPosition, hle]

theorem seekSetPosition_err (s : ReaderState) (n : Nat) (p : Bool)
    (hp : s.uncompressedPtr = some p) (hgt : (s.getBuf p).limit < n) :
    seekSetPosition s n = (some Err.positionError, s) := by
  have hnle : ¬ (n ≤ (s.getBuf p).limit) := by omega
  simp [seekSetPosition, hp, StorageByteBuffer.setPosition, hnle]

theorem seekSetPosition_cursor (s : ReaderState) (n : Nat) :
    (seekSetPosition s n).2.cursor = s.cursor := by
  unfold seekSetPosition
  split
  · rfl
  · split
    · rfl
    · simp

/-! ### Frame lemmas for `_assure_data` -/

theorem fill_frame (s : ReaderState) (len : Nat) :
    (s.fillCompressed len).2.uncompressedPtr = s.uncompressedPtr ∧
    (s.fillCompressed len).2.currentCompressPosition = s.currentCompressPosition ∧
    (s.fillCompressed len).2.helperPtr = s.helperPtr ∧
    (s.fillCompressed len).2.sharedPtr = s.sharedPtr ∧
    (s.fillCompressed len).2.compressBufferSize = s.compressBufferSize := by
  unfold ReaderState.fillCompressed
  split
  · simp
  · split
    · simp
    · simp [ReaderState.setSharedBuf]

theorem fill_cases (s : ReaderState) (len : Nat) :
    (s.fillCompressed len).1 = none ∨ (s.fillCompressed len).2 = s := by
  unfold ReaderState.fillCompressed
  split
  · right
    rfl
  · split
    · right
      rfl
    · left
      rfl

theorem assure_load_err_frame (dec : Decompressor) (s : ReaderState) :
    (assureDataLoad dec s).1 = none ∨
    ((assureDataLoad dec s).2.uncompressedPtr = s.uncompressedPtr ∧
     (assureDataLoad dec s).2.currentCompressPosition = s.currentCompressPosition) := by
  by_cases he : s.cursor.eof = true
  · right
    simp [assureDataLoad, he]
  · rw [Bool.not_eq_true] at he
    rcases hr : s.cursor.read streamHeadSize with - | ⟨hb, c1⟩
    · right
      simp [assureDataLoad, he, hr]
    · rcases hf : ReaderState.fillCompressed { s with cursor := c1 }
          (decodeHead hb).length with ⟨st, s2⟩
      have hff := fill_frame { s with cursor := c1 } (decodeHead hb).length
      rw [hf] at hff
      simp only at hff
      obtain ⟨hf1, hf2, hf3, hf4, hf5⟩ := hff
      cases st with
      | some e =>
          right
          simp [assureDataLoad, he, hr, hf, hf1, hf2]
      | none =>
          cases hk : (decodeHead hb).type with
          | uncompressed =>
              left
              simp [assureDataLoad, he, hr, hf, hk, assureFinish]
          | compressed =>
              simp only [assureDataLoad, he, hr, hf, hk, Bool.false_eq_true,
                if_false]
              split
              · right
                simp [ReaderState.setHelperBuf, hf1, hf2]
              · left
                simp [assureFinish]

theorem assure_err_frame (dec : Decompressor) (s : ReaderState) :
    (assureData dec s).1 = none ∨
    ((assureData dec s).2.uncompressedPtr = s.uncompressedPtr ∧
     (assureData dec s).2.currentCompressPosition = s.currentCompressPosition) := by
  cases hp : s.uncompressedPtr with
  | some p =>
      by_cases hrem : 0 < (s.getBuf p).remaining
      · left
        rw [assureData_early dec s p hp hrem]
      · rw [show assureData dec s = assureDataLoad dec s from by
          simp [assureData, hp, hrem]]
        have h := assure_load_err_frame dec s
        rw [hp] at h
        exact h
  | none =>
      rw [show assureData dec s = assureDataLoad dec s from by
        simp [assureData, hp]]
      have h := assure_load_err_frame dec s
      rw [hp] at h
      exact h

theorem assure_load_ok_frame (dec : Decompressor) (s : ReaderState) :
    (assureDataLoad dec s).1 ≠ none ∨
    ((assureDataLoad dec s).2.uncompressedPtr =
        some ((assureDataLoad dec s).2.helperPtr) ∧
     (assureDataLoad dec s).2.currentCompressPosition = s.cursor.position ∧
     ((assureDataLoad dec s).2.helperPtr ≠ (assureDataLoad dec s).2.sharedPtr ↔
        s.helperPtr ≠ s.sharedPtr)) := by
  by_cases he : s.cursor.eof = true
  · left
    simp [assureDataLoad, he]
  · rw [Bool.not_eq_true] at he
    rcases hr : s.cursor.read streamHeadSize with - | ⟨hb, c1⟩
    · left
      simp [assureDataLoad, he, hr]
    · rcases hf : ReaderState.fillCompressed { s with cursor := c1 }
          (decodeHead hb).length with ⟨st, s2⟩
      have hff := fill_frame { s with cursor := c1 } (decodeHead hb).length
      rw [hf] at hff
      simp only at hff
      obtain ⟨hf1, hf2, hf3, hf4, hf5⟩ := hff
      cases st with
      | some e =>
          left
          simp [assureDataLoad, he, hr, hf]
      | none =>
          cases hk : (decodeHead hb).type with
          | uncompressed =>
              right
              simp [assureDataLoad, he, hr, hf, hk, assureFinish, hf3, hf4,
                FileCursor.position]
              exact ne_comm
          | compressed =>
              simp only [assureDataLoad, he, hr, hf, hk, Bool.false_eq_true,
                if_false]
              split
              · left
                simp
              · right
                simp [assureFinish, ReaderState.setHelperBuf, hf3, hf4,
                  FileCursor.position]

theorem assure_ok_frame (dec : Decompressor) (s : ReaderState)
    (h0 : s.activeRemaining = 0) :
    (assureData dec s).1 ≠ none ∨
    ((assureData dec s).2.uncompressedPtr =
        some ((assureData dec s).2.helperPtr) ∧
     (assureData dec s).2.currentCompressPosition = s.cursor.position ∧
     ((assureData dec s).2.helperPtr ≠ (assureData dec s).2.sharedPtr ↔
        s.helperPtr ≠ s.sharedPtr)) := by
  rw [assureData_toLoad dec s h0]
  exact assure_load_ok_frame dec s

/-! ### Further seek helpers -/

theorem setBuf_getBuf (s : ReaderState) (p : Bool) :
    s.setBuf p (s.getBuf p) = s := by
  by_cases hp : p <;> simp [ReaderState.setBuf, ReaderState.getBuf, hp]

theorem seekSetPosition_pos (s : ReaderState) (n : Nat)
    (h : (seekSetPosition s n).1 = none) :
    (seekSetPosition s n).2.activePosition = n := by
  cases hp : s.uncompressedPtr with
  | none =>
      rw [show seekSetPosition s n = (some Err.nullPointer, s) from by
        simp [seekSetPosition, hp]] at h
      simp at h
  | some p =>
      by_cases hle : n ≤ (s.getBuf p).limit
      · rw [seekSetPosition_ok s n p hp hle]
        simp [ReaderState.activePosition, hp]
      · rw [seekSetPosition_err s n p hp (by omega)] at h
        simp at h

theorem reseek_noop (dec : Decompressor) (s1 : ReaderState) (p : Bool)
    (a b : Nat) (rest' : List Nat)
    (hccp : s1.currentCompressPosition = a)
    (hp : s1.uncompressedPtr = some p)
    (hpos : (s1.getBuf p).position = b)
    (hlim : b ≤ (s1.getBuf p).limit) :
    seek dec s1 (a :: b :: rest') = (none, s1, rest') := by
  rw [seek_fast dec s1 a b rest' hccp (by simp [hp]),
     seekSetPosition_ok s1 b p hp hlim]
  rw [← hpos]
  have heta : ({ s1.getBuf p with position := (s1.getBuf p).position } :
      StorageByteBuffer) = s1.getBuf p := rfl
  rw [heta, setBuf_getBuf]

theorem assure_oob (dec : Decompressor) (s : ReaderState)
    (h0 : s.activeRemaining = 0)
    (hposlt : s.cursor.pos < s.cursor.content.length)
    (hhdr : s.cursor.pos + streamHeadSize ≤ s.cursor.content.length)
    (hlen : s.compressBufferSize <
      (decodeHead ((s.cursor.content.drop s.cursor.pos).take streamHeadSize)).length) :
    assureData dec s = (some Err.outOfBounds,
      { s with cursor := { s.cursor with
          pos := s.cursor.pos + streamHeadSize,
          readCount := s.cursor.readCount + 1 } }) := by
  rw [assureData_toLoad dec s h0]
  unfold assureDataLoad
  rw [eof_false s.cursor hposlt]
  simp only [Bool.false_eq_true, if_false,
    read_spec s.cursor streamHeadSize hhdr, ReaderState.fillCompressed,
    FileCursor.position]
  rw [if_pos hlen]

/-! ### Claim theorems -/

/-- Claim C3: for every file region holding a sequence of blocks with valid
headers (RAW or COMPRESSED), sequentially fetching blocks through the reader
(repeated `_assure_data` plus consuming the active buffer) yields exactly the
concatenation of the blocks' decoded payloads in block order, assuming the
decompressor inverts the compression of each COMPRESSED block; the read
following the last block reports `StreamEof`. -/
theorem block_roundtrip_spec (dec : Decompressor) (blocks : List Block)
    (cap : Nat) (helperData sharedData : List Nat)
    (hwf : ∀ b ∈ blocks, b.wf dec (cap + streamHeadSize)) :
    (readAll dec (blocks.length + 1)
        (mkReader ((blocks.map encodeBlock).flatten) cap helperData sharedData)).1 =
      decodedConcat blocks ∧
    (readAll dec (blocks.length + 1)
        (mkReader ((blocks.map encodeBlock).flatten) cap helperData sharedData)).2.1 =
      some Err.streamEof := by
  apply readAll_empty dec blocks _ (blocks.length + 1) ?_ ?_ le_rfl
  · refine ⟨by simp [mkReader], by simp [mkReader], by simp [mkReader], ?_, ?_⟩
    · simp [mkReader, ReaderState.activeSlice]
    · simp [mkReader, ReaderState.activeWf]
  · intro b hb
    simpa [mkReader] using hwf b hb

/-- Witness for C3: a COMPRESSED block (stored `[7]`, decoded `[7, 7]` under
the doubling decompressor) followed by a RAW block `[33]` reads back as
`[7, 7, 33]` and then reports clean end of stream. -/
theorem block_roundtrip_spec_witness :
    (readAll decompressDup 3
        (mkReader (([⟨StreamKind.compressed, [7], [7, 7]⟩,
            ⟨StreamKind.uncompressed, [33], [33]⟩] : List Block).map encodeBlock).flatten
          16 [0, 0, 0, 0] [9, 9, 9, 9])).1 = [7, 7, 33] ∧
    (readAll decompressDup 3
        (mkReader (([⟨StreamKind.compressed, [7], [7, 7]⟩,
            ⟨StreamKind.uncompressed, [33], [33]⟩] : List Block).map encodeBlock).flatten
          16 [0, 0, 0, 0] [9, 9, 9, 9])).2.1 = some Err.streamEof := by
  have h := block_roundtrip_spec decompressDup
    [⟨StreamKind.compressed, [7], [7, 7]⟩, ⟨StreamKind.uncompressed, [33], [33]⟩]
    16 [0, 0, 0, 0] [9, 9, 9, 9] (by decide)
  simpa [decodedConcat] using h

/-- Claim C4: in `_assure_data` the end-of-region test on the file cursor is
evaluated before any header read: whenever no decoded bytes are pending and
the cursor is at its bound, the fetch returns `StreamEof` (never `IoError`),
leaves the state untouched, and performs no read. -/
theorem eof_before_header_spec (dec : Decompressor) (s : ReaderState)
    (hempty : s.uncompressedPtr = none ∨ s.activeRemaining = 0)
    (heof : s.cursor.eof = true) :
    assureData dec s = (some Err.streamEof, s) ∧
    (assureData dec s).2.cursor.readCount = s.cursor.readCount := by
  have h0 : s.activeRemaining = 0 := by
    cases hempty with
    | inl h => simp [ReaderState.activeRemaining, h]
    | inr h => exact h
  have heq := assureData_eofStep dec s h0 heof
  exact ⟨heq, by rw [heq]⟩

/-- Witness for C4: after reading the single block of a stream that ends
exactly on a block boundary, the next fetch reports `StreamEof` and changes
nothing. -/
theorem eof_before_header_spec_witness :
    assureData decompressId
        (readAll decompressId 1 (mkReader [0, 1, 42] 16 [0] [9, 9, 9])).2.2 =
      (some Err.streamEof,
        (readAll decompressId 1 (mkReader [0, 1, 42] 16 [0] [9, 9, 9])).2.2) :=
  (eof_before_header_spec decompressId _ (Or.inr (by decide)) (by decide)).1

/-- Claim C5: a block header whose length field exceeds the configured
compress-buffer capacity makes the fetch fail with `OutOfBounds` before any
payload byte is read (only the header read happened), and the failure leaves
the two buffer objects, the shared buffer's position and limit, the active
pointer and the loaded-block offset unchanged. -/
theorem bounds_rejection_spec (dec : Decompressor) (s : ReaderState)
    (hempty : s.uncompressedPtr = none ∨ s.activeRemaining = 0)
    (hposlt : s.cursor.pos < s.cursor.content.length)
    (hhdr : s.cursor.pos + streamHeadSize ≤ s.cursor.content.length)
    (hlen : s.compressBufferSize <
      (decodeHead ((s.cursor.content.drop s.cursor.pos).take streamHeadSize)).length) :
    (assureData dec s).1 = some Err.outOfBounds ∧
    (assureData dec s).2.buf0 = s.buf0 ∧
    (assureData dec s).2.buf1 = s.buf1 ∧
    (assureData dec s).2.sharedBuf.position = s.sharedBuf.position ∧
    (assureData dec s).2.sharedBuf.limit = s.sharedBuf.limit ∧
    (assureData dec s).2.uncompressedPtr = s.uncompressedPtr ∧
    (assureData dec s).2.currentCompressPosition = s.currentCompressPosition ∧
    (assureData dec s).2.cursor.readCount = s.cursor.readCount + 1 := by
  have h0 : s.activeRemaining = 0 := by
    cases hempty with
    | inl h => simp [ReaderState.activeRemaining, h]
    | inr h => exact h
  rw [assure_oob dec s h0 hposlt hhdr hlen]
  refine ⟨rfl, rfl, rfl, ?_, ?_, rfl, rfl, rfl⟩ <;>
    simp [ReaderState.sharedBuf, ReaderState.getBuf]

/-- Witness for C5: a header announcing 99 payload bytes against a capacity
of 18 is rejected out of bounds with all buffer state untouched. -/
theorem bounds_rejection_spec_witness :
    (assureData decompressId (mkReader [0, 99] 16 [] [])).1 =
      some Err.outOfBounds ∧
    (assureData decompressId (mkReader [0, 99] 16 [] [])).2.uncompressedPtr =
      (mkReader [0, 99] 16 [] []).uncompressedPtr := by
  have h := bounds_rejection_spec decompressId (mkReader [0, 99] 16 [] [])
    (Or.inl (by decide)) (by decide) (by decide) (by decide)
  exact ⟨h.1, h.2.2.2.2.2.1⟩

/-- Claim C9: after every successful block fetch that actually loaded a block
(nothing unconsumed was pending beforehand), the active buffer is the
reader-owned compressed helper, never the caller's shared slot. -/
theorem active_is_helper_spec (dec : Decompressor) (s : ReaderState)
    (hnew : s.uncompressedPtr = none ∨ s.activeRemaining = 0)
    (hdist : s.helperPtr ≠ s.sharedPtr)
    (hok : (assureData dec s).1 = none) :
    (assureData dec s).2.uncompressedPtr =
      some ((assureData dec s).2.helperPtr) ∧
    (assureData dec s).2.uncompressedPtr ≠
      some ((assureData dec s).2.sharedPtr) := by
  have h0 : s.activeRemaining = 0 := by
    cases hnew with
    | inl h => simp [ReaderState.activeRemaining, h]
    | inr h => exact h
  rcases assure_ok_frame dec s h0 with h1 | ⟨hp, -, hiff⟩
  · exact absurd hok h1
  · refine ⟨hp, ?_⟩
    rw [hp]
    intro hcontra
    exact (hiff.mpr hdist) (Option.some.inj hcontra)

/-- Witness for C9: loading the single RAW block of a fresh reader points the
active buffer at the helper and not at the shared slot. -/
theorem active_is_helper_spec_witness :
    (assureData decompressId (mkReader [0, 1, 42] 16 [0] [9, 9, 9])).2.uncompressedPtr =
      some ((assureData decompressId
        (mkReader [0, 1, 42] 16 [0] [9, 9, 9])).2.helperPtr) ∧
    (assureData decompressId (mkReader [0, 1, 42] 16 [0] [9, 9, 9])).2.uncompressedPtr ≠
      some ((assureData decompressId
        (mkReader [0, 1, 42] 16 [0] [9, 9, 9])).2.sharedPtr) :=
  active_is_helper_spec decompressId _ (Or.inl (by decide)) (by decide) (by decide)

/-- Claim C10: whenever `_assure_data` returns an error of any kind, the
active-buffer pointer and the recorded loaded-block file offset are both
unchanged from before the call. -/
theorem error_frame_spec (dec : Decompressor) (s : ReaderState) (e : Err)
    (h : (assureData dec s).1 = some e) :
    (assureData dec s).2.uncompressedPtr = s.uncompressedPtr ∧
    (assureData dec s).2.currentCompressPosition = s.currentCompressPosition := by
  rcases assure_err_frame dec s with h1 | h2
  · rw [h] at h1
    cases h1
  · exact h2

/-- Witness for C10: a decompressor failure on a COMPRESSED block leaves the
active pointer and the loaded-block offset untouched. -/
theorem error_frame_spec_witness :
    (assureData decompressNone (mkReader [1, 1, 7] 16 [0, 0] [9, 9, 9])).2.uncompressedPtr =
      (mkReader [1, 1, 7] 16 [0, 0] [9, 9, 9]).uncompressedPtr ∧
    (assureData decompressNone (mkReader [1, 1, 7] 16 [0, 0] [9, 9, 9])).2.currentCompressPosition =
      (mkReader [1, 1, 7] 16 [0, 0] [9, 9, 9]).currentCompressPosition :=
  error_frame_spec decompressNone _ Err.decompressError (by decide)

/-- Claim C6: fetching a RAW block performs no copy and no decompressor call:
the reader-owned spare buffer and the caller's shared slot swap identities
(the caller's slot afterwards names the reader's old spare buffer, whose
contents are bitwise untouched), the active buffer exposes bytes identical to
the block's on-disk payload, and the two buffer names never alias one
underlying buffer. -/
theorem raw_zero_copy_spec (dec dec' : Decompressor) (s : ReaderState)
    (blk : Block) (rest : List Nat)
    (hrem : s.activeRemaining = 0)
    (hdrop : s.cursor.content.drop s.cursor.pos = encodeBlock blk ++ rest)
    (hkind : blk.kind = StreamKind.uncompressed)
    (hcap : blk.stored.length ≤ s.compressBufferSize)
    (hdist : s.helperPtr ≠ s.sharedPtr) :
    assureData dec s = assureData dec' s ∧
    (assureData dec s).1 = none ∧
    (assureData dec s).2.sharedPtr = s.helperPtr ∧
    (assureData dec s).2.helperPtr = s.sharedPtr ∧
    (assureData dec s).2.getBuf s.helperPtr = s.getBuf s.helperPtr ∧
    (assureData dec s).2.uncompressedPtr = some s.sharedPtr ∧
    (assureData dec s).2.activeSlice = blk.stored ∧
    (assureData dec s).2.helperPtr ≠ (assureData dec s).2.sharedPtr := by
  rw [assure_load_raw dec s blk rest hrem hdrop hkind hcap,
      assure_load_raw dec' s blk rest hrem hdrop hkind hcap]
  refine ⟨rfl, rfl, rfl, rfl, ?_, rfl, ?_, ?_⟩
  · by_cases hhp : s.helperPtr <;> by_cases hsp : s.sharedPtr <;>
      simp_all [ReaderState.setSharedBuf, ReaderState.setBuf, ReaderState.getBuf]
  · by_cases hhp : s.helperPtr <;> by_cases hsp : s.sharedPtr <;>
      simp_all [ReaderState.setSharedBuf, ReaderState.setBuf, ReaderState.getBuf,
        ReaderState.activeSlice, ReaderState.sharedBuf,
        StorageByteBuffer.validBytes, List.take_left]
  · simpa using Ne.symm hdist

/-- Witness for C6: fetching the RAW block `[5, 6]` swaps the two buffer
names, leaves the old spare buffer contents `[1, 2, 3]` intact in the shared
slot, and exposes exactly `[5, 6]`. -/
theorem raw_zero_copy_spec_witness :
    assureData decompressId (mkReader [0, 2, 5, 6] 16 [1, 2, 3] [9, 9, 9]) =
      assureData decompressNone (mkReader [0, 2, 5, 6] 16 [1, 2, 3] [9, 9, 9]) ∧
    (assureData decompressId
      (mkReader [0, 2, 5, 6] 16 [1, 2, 3] [9, 9, 9])).2.activeSlice = [5, 6] := by
  have h := raw_zero_copy_spec decompressId decompressNone
    (mkReader [0, 2, 5, 6] 16 [1, 2, 3] [9, 9, 9])
    ⟨StreamKind.uncompressed, [5, 6], [5, 6]⟩ []
    (by decide) (by decide) (by decide) (by decide) (by decide)
  exact ⟨h.1, h.2.2.2.2.2.2.1⟩

/-- Claim C8: every call to `seek` consumes exactly two values from the
position source — the remainder handed back is always the source less its
first two entries — and the consumed pair is interpreted in the fixed order
(compressed file offset first, then the in-block offset): the
provider-driven `seek` coincides with the explicit-pair reference
`seekToPair` applied to the first two entries. -/
theorem seek_two_positions_spec (dec : Decompressor) (s : ReaderState)
    (prov : List Nat) :
    (seek dec s prov).2.2 = prov.drop 2 ∧
    (∀ a b rest, prov = a :: b :: rest →
      seek dec s prov =
        ((seekToPair dec s a b).1, (seekToPair dec s a b).2, rest)) := by
  constructor
  · simp only [seek, getNext]
    by_cases hcond : (s.currentCompressPosition = prov.headD 0 ∧
        s.uncompressedPtr.isSome = true)
    · rw [if_pos hcond]
      simpa using tail_tail_drop prov
    · rw [if_neg hcond]
      rcases hr : assureData dec { s with
          cursor := s.cursor.seek (prov.headD 0), uncompressedPtr := none }
        with ⟨st, s2⟩
      cases st <;> simp [hr, tail_tail_drop]
  · intro a b rest hprov
    subst hprov
    by_cases hcond : (s.currentCompressPosition = a ∧
        s.uncompressedPtr.isSome = true)
    · rw [seek_fast dec s a b rest hcond.1 hcond.2]
      unfold seekToPair
      rw [if_pos hcond]
    · rcases hr : assureData dec { s with
          cursor := s.cursor.seek a, uncompressedPtr := none } with ⟨st, s2⟩
      cases st with
      | some e =>
          rw [seek_slow_err dec s a b rest e s2 hcond hr]
          unfold seekToPair
          rw [if_neg hcond]
          simp [hr]
      | none =>
          rw [seek_slow_ok dec s a b rest s2 hcond hr]
          unfold seekToPair
          rw [if_neg hcond]
          simp [hr]

/-- Witness for C8: a concrete seek consumes exactly the first two provider
entries and matches the explicit-pair reference. -/
theorem seek_two_positions_spec_witness :
    (seek decompressId (mkReader [0, 1, 42] 16 [0] [9, 9, 9]) [0, 0, 7]).2.2 =
      [7] ∧
    seek decompressId (mkReader [0, 1, 42] 16 [0] [9, 9, 9]) [0, 0, 7] =
      ((seekToPair decompressId (mkReader [0, 1, 42] 16 [0] [9, 9, 9]) 0 0).1,
       (seekToPair decompressId (mkReader [0, 1, 42] 16 [0] [9, 9, 9]) 0 0).2,
       [7]) := by
  have h := seek_two_positions_spec decompressId
    (mkReader [0, 1, 42] 16 [0] [9, 9, 9]) [0, 0, 7]
  exact ⟨h.1, h.2 0 0 [7] rfl⟩

theorem seekSetPosition_ptr (s : ReaderState) (n : Nat) :
    (seekSetPosition s n).2.uncompressedPtr = s.uncompressedPtr := by
  unfold seekSetPosition
  split
  · rfl
  · split
    · rfl
    · simp

/-- Claim C7: if the block load inside `seek` reports `StreamEof`, `seek`
returns it as-is without attempting to reposition the active buffer; in every
non-error path `seek` finally sets the active buffer's read cursor to the
requested in-block offset, and an offset beyond the block's limit is
propagated as an error. -/
theorem seek_error_paths_spec (dec : Decompressor) (s : ReaderState)
    (a b : Nat) (rest : List Nat) :
    (∀ s2, ¬ (s.currentCompressPosition = a ∧ s.uncompressedPtr.isSome = true) →
      assureData dec
          { s with cursor := s.cursor.seek a, uncompressedPtr := none } =
        (some Err.streamEof, s2) →
      seek dec s (a :: b :: rest) = (some Err.streamEof, s2, rest)) ∧
    ((seek dec s (a :: b :: rest)).1 = none →
      (seek dec s (a :: b :: rest)).2.1.activePosition = b) ∧
    (∀ p, s.currentCompressPosition = a → s.uncompressedPtr = some p →
      (s.getBuf p).limit < b →
      (seek dec s (a :: b :: rest)).1 = some Err.positionError) := by
  refine ⟨?_, ?_, ?_⟩
  · intro s2 hcond hr
    exact seek_slow_err dec s a b rest Err.streamEof s2 hcond hr
  · intro h1
    by_cases hcond : (s.currentCompressPosition = a ∧
        s.uncompressedPtr.isSome = true)
    · rw [seek_fast dec s a b rest hcond.1 hcond.2] at h1 ⊢
      exact seekSetPosition_pos s b h1
    · rcases hr : assureData dec { s with
          cursor := s.cursor.seek a, uncompressedPtr := none } with ⟨st, s2⟩
      cases st with
      | some e =>
          rw [seek_slow_err dec s a b rest e s2 hcond hr] at h1
          simp at h1
      | none =>
          rw [seek_slow_ok dec s a b rest s2 hcond hr] at h1 ⊢
          exact seekSetPosition_pos s2 b h1
  · intro p hccp hp hlim
    rw [seek_fast dec s a b rest hccp (by simp [hp]),
      seekSetPosition_err s b p hp hlim]

/-- Witness for C7: after loading the one-byte block at offset 0, re-seeking
to offset 0 with in-block offset 5 (beyond the block's limit 1) is rejected
as a position error. -/
theorem seek_error_paths_spec_witness :
    (seek decompressId
      (assureData decompressId (mkReader [0, 1, 42] 16 [0] [9, 9, 9])).2
      [0, 5, 7]).1 = some Err.positionError :=
  (seek_error_paths_spec decompressId
    (assureData decompressId (mkReader [0, 1, 42] 16 [0] [9, 9, 9])).2
    0 5 [7]).2.2 true (by decide) (by decide) (by decide)

/-- Claim C2: the seek fast path is gated on both the recorded loaded-block
offset matching and a block being resident: when both hold, seek touches no
file state (no I/O, no re-fetch) and reuses the resident block; when the
active buffer is cleared, a matching offset alone forces a real reload (two
cursor reads happen); and re-seeking the same pair after a successful seek
returns the identical state with no further file read. -/
theorem seek_fast_path_spec (dec : Decompressor) (s : ReaderState)
    (a b : Nat) (rest rest' : List Nat) :
    ((s.currentCompressPosition = a ∧ s.uncompressedPtr.isSome = true) →
      (seek dec s (a :: b :: rest)).2.1.cursor = s.cursor ∧
      (seek dec s (a :: b :: rest)).2.1.cursor.readCount = s.cursor.readCount ∧
      (seek dec s (a :: b :: rest)).2.1.uncompressedPtr = s.uncompressedPtr) ∧
    (∀ blk blocks, s.uncompressedPtr = none →
      Conf { s with cursor := s.cursor.seek a, uncompressedPtr := none } []
        (blk :: blocks) →
      blk.wf dec s.compressBufferSize →
      (seek dec s (a :: b :: rest)).2.1.cursor.readCount =
        s.cursor.readCount + 2) ∧
    ((seek dec s (a :: b :: rest)).1 = none →
      seek dec (seek dec s (a :: b :: rest)).2.1 (a :: b :: rest') =
        (none, (seek dec s (a :: b :: rest)).2.1, rest')) := by
  refine ⟨?_, ?_, ?_⟩
  · intro hcond
    rw [seek_fast dec s a b rest hcond.1 hcond.2]
    exact ⟨seekSetPosition_cursor s b, by rw [seekSetPosition_cursor s b],
      seekSetPosition_ptr s b⟩
  · intro blk blocks hp hconf hbwf
    have hcond : ¬ (s.currentCompressPosition = a ∧
        s.uncompressedPtr.isSome = true) := by
      simp [hp]
    obtain ⟨hst, -, -, -, -, -, hrc, -⟩ :=
      conf_load dec { s with cursor := s.cursor.seek a, uncompressedPtr := none }
        blk blocks hconf hbwf
    rcases hr : assureData dec { s with
        cursor := s.cursor.seek a, uncompressedPtr := none } with ⟨st, s2⟩
    rw [hr] at hst hrc
    simp only at hst hrc
    subst hst
    rw [seek_slow_ok dec s a b rest s2 hcond hr, seekSetPosition_cursor s2 b]
    simpa [FileCursor.seek] using hrc
  · intro h1
    by_cases hcond : (s.currentCompressPosition = a ∧
        s.uncompressedPtr.isSome = true)
    · rw [seek_fast dec s a b rest hcond.1 hcond.2] at h1 ⊢
      obtain ⟨p, hp⟩ := Option.isSome_iff_exists.mp hcond.2
      by_cases hle : b ≤ (s.getBuf p).limit
      · rw [seekSetPosition_ok s b p hp hle] at h1 ⊢
        apply reseek_noop dec _ p a b rest'
        · simp [hcond.1]
        · simp [hp]
        · simp
        · simp [hle]
      · rw [seekSetPosition_err s b p hp (by omega)] at h1
        simp at h1
    · rcases hr : assureData dec { s with
          cursor := s.cursor.seek a, uncompressedPtr := none } with ⟨st, s2⟩
      cases st with
      | some e =>
          rw [seek_slow_err dec s a b rest e s2 hcond hr] at h1
          simp at h1
      | none =>
          rw [seek_slow_ok dec s a b rest s2 hcond hr] at h1 ⊢
          have h0 : ReaderState.activeRemaining
              { s with cursor := s.cursor.seek a, uncompressedPtr := none } = 0 := by
            simp [ReaderState.activeRemaining]
          rcases assure_ok_frame dec _ h0 with hbad | ⟨hp2, hccp2, -⟩
          · rw [hr] at hbad
            simp at hbad
          · rw [hr] at hp2 hccp2
            simp only at hp2 hccp2
            by_cases hle : b ≤ (s2.getBuf s2.helperPtr).limit
            · rw [seekSetPosition_ok s2 b s2.helperPtr hp2 hle] at h1 ⊢
              apply reseek_noop dec _ s2.helperPtr a b rest'
              · simpa [FileCursor.seek, FileCursor.position] using hccp2
              · simp [hp2]
              · simp
              · simp [hle]
            · rw [seekSetPosition_err s2 b s2.helperPtr hp2 (by omega)] at h1
              simp at h1

/-- Witness for C2: over a two-block region, seeking to the second block and
then re-seeking the same pair returns the identical state with the provider
rest handed back, and the cleared-buffer reload performs exactly two reads. -/
theorem seek_fast_path_spec_witness :
    (seek decompressDup
        (mkReader [1, 1, 7, 0, 1, 5] 16 [0, 0, 0, 0] [9, 9, 9, 9]) [3, 0, 8]).1 =
      none ∧
    seek decompressDup
        (seek decompressDup
          (mkReader [1, 1, 7, 0, 1, 5] 16 [0, 0, 0, 0] [9, 9, 9, 9])
          [3, 0, 8]).2.1 [3, 0, 9] =
      (none,
       (seek decompressDup
          (mkReader [1, 1, 7, 0, 1, 5] 16 [0, 0, 0, 0] [9, 9, 9, 9])
          [3, 0, 8]).2.1, [9]) :=
  ⟨by decide,
   (seek_fast_path_spec decompressDup
      (mkReader [1, 1, 7, 0, 1, 5] 16 [0, 0, 0, 0] [9, 9, 9, 9])
      3 0 [8] [9]).2.2 (by decide)⟩

/-- Claim C1 counterexample: over a stream holding exactly one decoded byte
(the complete read-out is `[42]`, one byte, ending in clean `StreamEof`),
`skip 1` — a skip of N equal to, hence not exceeding, the total remaining
decoded length — reports `StreamEof` instead of succeeding. -/
theorem skip_exact_length_cex :
    (readAll decompressId 2 (mkReader [0, 1, 42] 16 [0] [9, 9, 9])).1 = [42] ∧
    (readAll decompressId 2 (mkReader [0, 1, 42] 16 [0] [9, 9, 9])).2.1 =
      some Err.streamEof ∧
    (skip decompressId (mkReader [0, 1, 42] 16 [0] [9, 9, 9]) 1).1 =
      some Err.streamEof := by
  refine ⟨by decide, by decide, by decide⟩

/-- Claim C1 (amended): over a well-formed stream of blocks with nonempty
decoded payloads, `skip N` succeeds for every N strictly below the total
remaining decoded length, advancing the logical position by exactly N bytes —
a subsequent full read returns precisely the bytes that reading and
discarding N bytes sequentially would leave; `skip N` for N greater than or
equal to the remaining decoded length reports `StreamEof`. -/
theorem skip_amended_spec (dec : Decompressor) (s : ReaderState)
    (cur : List Nat) (blocks : List Block) (n : Nat)
    (hc : Conf s cur blocks)
    (hwf : ∀ b ∈ blocks, b.wf dec s.compressBufferSize)
    (hne : ∀ b ∈ blocks, b.decoded ≠ []) :
    (n < cur.length + (decodedConcat blocks).length →
      (skip dec s n).1 = none ∧
      ∃ m, (readAll dec m (skip dec s n).2).1 =
          (cur ++ decodedConcat blocks).drop n ∧
        (readAll dec m (skip dec s n).2).2.1 = some Err.streamEof) ∧
    (cur.length + (decodedConcat blocks).length ≤ n →
      (skip dec s n).1 = some Err.streamEof) := by
  obtain ⟨main1, main2⟩ := skip_conf dec s cur blocks n hc hwf hne
  refine ⟨?_, main2⟩
  intro hn
  obtain ⟨m1, cur2, blocks2, mc, mw, me⟩ := main1 hn
  refine ⟨m1, blocks2.length + 2, ?_, ?_⟩
  · rw [(readAll_conf dec blocks2 cur2 (skip dec s n).2
      (blocks2.length + 2) mc mw le_rfl).1, me]
  · exact (readAll_conf dec blocks2 cur2 (skip dec s n).2
      (blocks2.length + 2) mc mw le_rfl).2

/-- Witness for C1 (amended): skipping 1 byte of a two-byte RAW stream
succeeds and the subsequent read returns the remaining byte. -/
theorem skip_amended_spec_witness :
    (skip decompressId (mkReader [0, 2, 10, 11] 16 [0, 0] [9, 9, 9, 9]) 1).1 =
      none ∧
    ∃ m, (readAll decompressId m
        (skip decompressId (mkReader [0, 2, 10, 11] 16 [0, 0] [9, 9, 9, 9]) 1).2).1 =
        [11] ∧
      (readAll decompressId m
        (skip decompressId (mkReader [0, 2, 10, 11] 16 [0, 0] [9, 9, 9, 9]) 1).2).2.1 =
        some Err.streamEof := by
  have h := (skip_amended_spec decompressId
    (mkReader [0, 2, 10, 11] 16 [0, 0] [9, 9, 9, 9]) []
    [⟨StreamKind.uncompressed, [10, 11], [10, 11]⟩] 1
    (by decide) (by decide) (by decide)).1 (by decide)
  simpa [decodedConcat] using h

end FileStream